import Mathlib

/-!
Verification development for the portfolio gallery client
(FrontEnd/js: main.js, scripts/dom.js, scripts/utils.js, scripts/api.js).

The JavaScript sources are shallowly embedded: strings are Lean `String`
(lists of `Char`), JS numbers that hold integer ids are `Int`, nullable
values are `Option`, and the relevant fragments of the DOM (the two
galleries) are lists of figure records keyed by their data-id attribute.
The Unicode-dependent primitives (`toLowerCase`, NFD normalization plus
combining-mark stripping, the `\s` and `\w` regex classes) are modelled on
the ASCII and Latin-1 ranges that the category names and titles of this
application inhabit; each such model is documented at its definition.
-/

namespace Portfolio

/-! ### JS string primitives -/

/-- Model of the JS regex class `\s` (whitespace): space, tab, LF, VT, FF,
CR, NBSP, and the Unicode space separators used by JS regex engines. -/
def jsIsSpace (c : Char) : Bool :=
  let n := c.toNat
  n = 32 || n = 9 || n = 10 || n = 11 || n = 12 || n = 13 ||
  n = 0xA0 || n = 0x1680 || (0x2000 ≤ n && n ≤ 0x200A) ||
  n = 0x2028 || n = 0x2029 || n = 0x202F || n = 0x205F || n = 0x3000 || n = 0xFEFF

/-- Model of the JS regex class `\w` (word character): ASCII letters,
digits, and underscore. -/
def isWordChar (c : Char) : Bool :=
  let n := c.toNat
  (48 ≤ n && n ≤ 57) || (65 ≤ n && n ≤ 90) || (97 ≤ n && n ≤ 122) || n = 95

/-- Model of `String.prototype.toLowerCase` on the ASCII and Latin-1
ranges: `A`-`Z` and `À`-`Þ` (except `×`, U+00D7) map 32 code points up;
everything else is unchanged. -/
def jsToLower (c : Char) : Char :=
  let n := c.toNat
  if 65 ≤ n && n ≤ 90 then Char.ofNat (n + 32)
  else if 0xC0 ≤ n && n ≤ 0xDE && n ≠ 0xD7 then Char.ofNat (n + 32)
  else c

/-- toLowerCase lifted to strings. -/
def jsToLowerStr (s : String) : String := ⟨s.data.map jsToLower⟩

/-- Net effect of `normalize("NFD")` followed by
`replace(/[̀-ͯ]/g, "")` on Latin-1: each accented Latin-1
letter decomposes into its base letter plus combining marks, and the
marks are then removed, so the letter is replaced by its base; letters
without a canonical decomposition (æ ø ð þ ß × ÷) are unchanged. -/
def deaccent (c : Char) : Char :=
  let n := c.toNat
  if 0xE0 ≤ n && n ≤ 0xE5 then 'a'
  else if n = 0xE7 then 'c'
  else if 0xE8 ≤ n && n ≤ 0xEB then 'e'
  else if 0xEC ≤ n && n ≤ 0xEF then 'i'
  else if n = 0xF1 then 'n'
  else if 0xF2 ≤ n && n ≤ 0xF6 then 'o'
  else if 0xF9 ≤ n && n ≤ 0xFC then 'u'
  else if n = 0xFD || n = 0xFF then 'y'
  else if 0xC0 ≤ n && n ≤ 0xC5 then 'A'
  else if n = 0xC7 then 'C'
  else if 0xC8 ≤ n && n ≤ 0xCB then 'E'
  else if 0xCC ≤ n && n ≤ 0xCF then 'I'
  else if n = 0xD1 then 'N'
  else if 0xD2 ≤ n && n ≤ 0xD6 then 'O'
  else if 0xD9 ≤ n && n ≤ 0xDC then 'U'
  else if n = 0xDD then 'Y'
  else c

/-- Model of `replace(/&/g, "et")`: each ampersand becomes the two
characters `et`. -/
def replaceAmp : List Char → List Char
  | [] => []
  | c :: rest => (if c = '&' then ['e', 't'] else [c]) ++ replaceAmp rest

/-- Flush the pending whitespace run: a run of length at least `minLen`
is replaced by `repl`, a shorter (nonempty) run is kept verbatim. -/
def emitRun (minLen : Nat) (repl run : List Char) : List Char :=
  if run.isEmpty then [] else if minLen ≤ run.length then repl else run

/-- Worker for whitespace-run replacement: accumulates the current
maximal run of `jsIsSpace` characters in `run` and flushes it via
`emitRun` at each non-space character and at the end. -/
def rwrAux (minLen : Nat) (repl : List Char) (run : List Char) : List Char → List Char
  | [] => emitRun minLen repl run
  | c :: rest =>
    if jsIsSpace c then rwrAux minLen repl (run ++ [c]) rest
    else emitRun minLen repl run ++ c :: rwrAux minLen repl [] rest

/-- Model of `replace(/\s{minLen,}/g, repl)` for a maximal-run reading:
with `minLen = 1` this is `replace(/\s+/g, repl)`, with `minLen = 2` it
is `replace(/\s{2,}/g, repl)`. -/
def replaceWsRuns (minLen : Nat) (repl : List Char) (l : List Char) : List Char :=
  rwrAux minLen repl [] l

/-- Model of `String.prototype.trim`: strip leading and trailing
whitespace. -/
def jsTrim (l : List Char) : List Char :=
  ((l.dropWhile jsIsSpace).reverse.dropWhile jsIsSpace).reverse

/-- trim lifted to strings. -/
def jsTrimStr (s : String) : String := ⟨jsTrim s.data⟩

/-! ### slugify (FrontEnd/js/scripts/utils.js, lines 35-44) -/

/-- Embedding of `slugify` from utils.js: lowercase, NFD-normalize and
strip diacritics, replace `&` by `et`, collapse whitespace runs to single
hyphens, delete every character that is neither a word character nor a
hyphen, and trim. -/
def slugify (s : String) : String :=
  let l1 := s.data.map jsToLower
  let l2 := l1.map deaccent
  let l3 := replaceAmp l2
  let l4 := replaceWsRuns 1 ['-'] l3
  let l5 := l4.filter (fun c => isWordChar c || c = '-')
  ⟨jsTrim l5⟩

/-- C9: slugify is a deterministic function (it is a pure Lean function
of its argument) implementing lowercase, diacritic stripping, `&` to
`et`, whitespace-run hyphenation and non-word-character deletion; on the
two spec inputs it yields the same hyphenated, diacritic-free, lowercase
token with `et` in place of `&`. -/
theorem c9_slugify_ascii_normalizing :
    slugify "Hôtels & Restaurants" = "hotels-et-restaurants" ∧
    slugify "HOTELS & RESTAURANTS" = "hotels-et-restaurants" := by
  constructor <;> rfl

/-! ### Data model -/

/-- A category as returned by the categories endpoint or embedded in a
work: a numeric id and a human-readable name. -/
structure Category where
  id : Int
  name : String
deriving DecidableEq, Repr

/-- The embedded category reference of a work: the backend list response
embeds `id` and `name`, but the create response may omit either, so both
fields are nullable. -/
structure WorkCat where
  id : Option Int := none
  name : Option String := none
deriving DecidableEq, Repr

/-- A portfolio work: numeric id, title, image URL, and a category that
is either embedded (`category`) or referenced by id (`categoryId`). -/
structure Work where
  id : Int
  title : String := ""
  imageUrl : String := ""
  category : Option WorkCat := none
  categoryId : Option Int := none
deriving DecidableEq, Repr

/-! ### URL parameter and current-filter rendering
(utils.js lines 69-74, main.js lines 210-216) -/

/-- Embedding of `getCategoryNameFromQueryParam` from utils.js: the
`category` query parameter (`none` when absent) is null when missing,
empty, or the literal `all`, and is lowercased otherwise. -/
def getCategoryNameFromQueryParam (raw : Option String) : Option String :=
  match raw with
  | none => none
  | some s => if s = "" || s = "all" then none else some (jsToLowerStr s)

/-- The slug tested by `renderByCurrentFilter` in main.js:
`slugify(w.category?.name || "")` — only the embedded category name is
consulted, a missing category or name contributing the empty string. -/
def embWorkSlug (w : Work) : String :=
  slugify ((w.category.bind (fun c => c.name)).getD "")

/-- Embedding of `renderByCurrentFilter` from main.js (lines 210-216):
the list handed to `displayWorks`. With a present, non-`all` slug the
store is filtered by the embedded-name slug; otherwise the whole store
is rendered. -/
def renderByCurrentFilter (works : List Work) (rawParam : Option String) : List Work :=
  match getCategoryNameFromQueryParam rawParam with
  | some slug => if slug ≠ "all" then works.filter (fun w => embWorkSlug w == slug) else works
  | none => works

/-! ### Filter mounting (dom.js displayFilters, lines 375-450) -/

/-- Embedding of the `catById` map built in `displayFilters`:
`new Map(categories.map(c => [String(c.id), c.name]))`. A JS `Map`
constructor lets a later entry overwrite an earlier one with the same
key, so lookup finds the last matching category. -/
def catById (categories : List Category) (i : Int) : Option String :=
  (categories.reverse.find? (fun c => c.id == i)).map (fun c => c.name)

/-- Embedding of `getWorkCategorySlug` from `displayFilters`
(dom.js lines 385-397): a truthy embedded name is slugified directly;
otherwise `category.id`, then `categoryId`, is resolved against the
known category list, an unresolved or empty name yielding null. -/
def getWorkCategorySlug (categories : List Category) (w : Work) : Option String :=
  if ((w.category.bind (fun c => c.name)).getD "") ≠ "" then
    some (slugify ((w.category.bind (fun c => c.name)).getD ""))
  else
    match w.category.bind (fun c => c.id) with
    | some cid =>
      if (catById categories cid).getD "" ≠ "" then
        some (slugify ((catById categories cid).getD ""))
      else none
    | none =>
      match w.categoryId with
      | some cid =>
        if (catById categories cid).getD "" ≠ "" then
          some (slugify ((catById categories cid).getD ""))
        else none
      | none => none

/-- The visible list produced by a category filter button click in
`displayFilters` (dom.js lines 429-435):
`works.filter(w => getWorkCategorySlug(w) === slug)`. -/
def deriveVisibleClick (categories : List Category) (works : List Work) (slug : String) : List Work :=
  works.filter (fun w => getWorkCategorySlug categories w == some slug)

/-- The visible list rendered when `displayFilters` mounts
(dom.js lines 438-449): the raw `category` parameter is lowercased
(empty or absent meaning `all`), the first button whose
`data-category-slug` equals it is clicked (the `all` button coming
first), and when no button matches, the `all` button is clicked. -/
def displayFiltersInitialVisible (categories : List Category) (works : List Work)
    (rawParam : Option String) : List Work :=
  let selectedSlug : Option String :=
    match rawParam with
    | none => none
    | some r => if r = "" then none else some (jsToLowerStr r)
  let target := selectedSlug.getD "all"
  let buttonSlugs := "all" :: categories.map (fun c => slugify c.name)
  match buttonSlugs.find? (fun s => s == target) with
  | some s => if s = "all" then works else deriveVisibleClick categories works s
  | none => works

/-- C2: filtering by a category slug yields a subset of the store in
which every element resolves (via `getWorkCategorySlug`) to exactly the
requested slug, a work whose category cannot be resolved belongs to no
such subset, and the `all` / absent-slug derivations return lists of the
full store size. -/
theorem c2_derive_visible_subset_characterization
    (categories : List Category) (works : List Work) (slug : String)
    (hslug : slug ∈ categories.map (fun c => slugify c.name)) :
    (∀ w ∈ deriveVisibleClick categories works slug, w ∈ works) ∧
    (∀ w ∈ deriveVisibleClick categories works slug,
      getWorkCategorySlug categories w = some slug) ∧
    (∀ w ∈ works, getWorkCategorySlug categories w = none →
      w ∉ deriveVisibleClick categories works slug) ∧
    (renderByCurrentFilter works none).length = works.length ∧
    (renderByCurrentFilter works (some "all")).length = works.length ∧
    (displayFiltersInitialVisible categories works none).length = works.length := by
  refine ⟨?_, ?_, ?_, ?_, ?_, ?_⟩
  · intro w hw
    exact (List.mem_filter.mp hw).1
  · intro w hw
    have h := (List.mem_filter.mp hw).2
    exact eq_of_beq h
  · intro w _ hnone hw
    have h := (List.mem_filter.mp hw).2
    have := eq_of_beq h
    rw [hnone] at this
    exact Option.noConfusion this
  · rfl
  · rfl
  · rfl

/-- Witness for C2 at the spec scenario: two works in the categories
`Objets` and `Appartements`, filtered by the slug `objets`. -/
theorem c2_witness :
    ("objets" ∈ ([⟨10, "Objets"⟩, ⟨11, "Appartements"⟩] : List Category).map
        (fun c => slugify c.name)) ∧
    (∀ w ∈ deriveVisibleClick [⟨10, "Objets"⟩, ⟨11, "Appartements"⟩]
        [⟨1, "Chair", "", some ⟨some 10, some "Objets"⟩, none⟩,
         ⟨2, "Table", "", some ⟨some 11, some "Appartements"⟩, none⟩] "objets", w ∈
        [⟨1, "Chair", "", some ⟨some 10, some "Objets"⟩, none⟩,
         ⟨2, "Table", "", some ⟨some 11, some "Appartements"⟩, none⟩]) ∧
    (∀ w ∈ deriveVisibleClick [⟨10, "Objets"⟩, ⟨11, "Appartements"⟩]
        [⟨1, "Chair", "", some ⟨some 10, some "Objets"⟩, none⟩,
         ⟨2, "Table", "", some ⟨some 11, some "Appartements"⟩, none⟩] "objets",
      getWorkCategorySlug [⟨10, "Objets"⟩, ⟨11, "Appartements"⟩] w = some "objets") := by
  have h := c2_derive_visible_subset_characterization
    [⟨10, "Objets"⟩, ⟨11, "Appartements"⟩]
    [⟨1, "Chair", "", some ⟨some 10, some "Objets"⟩, none⟩,
     ⟨2, "Table", "", some ⟨some 11, some "Appartements"⟩, none⟩]
    "objets" (by decide)
  exact ⟨by decide, h.1, h.2.1⟩

/-- C3 counterexample: with one work in the category `Objets` and the
unrecognized URL slug `chairs` (not `all`, not the slug of any known
category), the popstate / create / delete re-render path
`renderByCurrentFilter` produces the empty list, not the full work
store as the claim requires. -/
theorem c3_counterexample :
    renderByCurrentFilter
        [⟨1, "Chair", "", some ⟨some 10, some "Objets"⟩, none⟩] (some "chairs") = [] ∧
    ([⟨1, "Chair", "", some ⟨some 10, some "Objets"⟩, none⟩] : List Work) ≠ [] ∧
    "chairs" ∉ ([⟨10, "Objets"⟩] : List Category).map (fun c => slugify c.name) ∧
    "chairs" ≠ "all" := by
  refine ⟨by decide, by decide, by decide, by decide⟩

/-- C3 amended: an unrecognized `category` slug (non-empty, not `all`
after lowercasing, matching no known category slug) falls back to `all`
only at bootstrap: `displayFilters` clicks the `all` button and the full
store is rendered. On the popstate / create / delete re-render path,
`renderByCurrentFilter` instead filters by the unrecognized slug and,
whenever the slug matches no work's embedded-category slug, renders the
empty set. -/
theorem c3_amended_unrecognized_slug
    (categories : List Category) (works : List Work) (raw : String)
    (hne : raw ≠ "")
    (hnall : jsToLowerStr raw ≠ "all")
    (hunknown : jsToLowerStr raw ∉ categories.map (fun c => slugify c.name)) :
    displayFiltersInitialVisible categories works (some raw) = works ∧
    ((∀ w ∈ works, embWorkSlug w ≠ jsToLowerStr raw) →
      renderByCurrentFilter works (some raw) = []) := by
  constructor
  · unfold displayFiltersInitialVisible
    simp only [hne, if_false]
    have hfind : ("all" :: categories.map (fun c => slugify c.name)).find?
        (fun s => s == (some (jsToLowerStr raw)).getD "all") = none := by
      rw [List.find?_eq_none]
      intro s hs
      simp only [Option.getD_some, beq_eq_false_iff_ne, ne_eq, beq_iff_eq]
      rcases List.mem_cons.mp hs with h | h
      · subst h
        exact fun hc => hnall hc.symm
      · exact fun hc => hunknown (hc ▸ h)
    simp only [Option.getD_some]
    simp only [Option.getD_some] at hfind
    rw [hfind]
  · intro hnowork
    have hraw_ne_all : raw ≠ "all" := by
      intro h
      subst h
      exact hnall rfl
    have hred : getCategoryNameFromQueryParam (some raw) = some (jsToLowerStr raw) := by
      unfold getCategoryNameFromQueryParam
      simp [hne, hraw_ne_all]
    unfold renderByCurrentFilter
    rw [hred]
    dsimp only
    rw [if_pos hnall]
    rw [List.filter_eq_nil_iff]
    intro w hw
    simp only [beq_eq_false_iff_ne, ne_eq, beq_iff_eq]
    exact hnowork w hw

/-- Witness for the amended C3: the unrecognized slug `chairs` against a
one-work store in category `Objets`. -/
theorem c3_amended_witness :
    displayFiltersInitialVisible [⟨10, "Objets"⟩]
        [⟨1, "Chair", "", some ⟨some 10, some "Objets"⟩, none⟩] (some "chairs") =
      [⟨1, "Chair", "", some ⟨some 10, some "Objets"⟩, none⟩] ∧
    ((∀ w ∈ ([⟨1, "Chair", "", some ⟨some 10, some "Objets"⟩, none⟩] : List Work),
        embWorkSlug w ≠ jsToLowerStr "chairs") →
      renderByCurrentFilter
        [⟨1, "Chair", "", some ⟨some 10, some "Objets"⟩, none⟩] (some "chairs") = []) :=
  c3_amended_unrecognized_slug [⟨10, "Objets"⟩]
    [⟨1, "Chair", "", some ⟨some 10, some "Objets"⟩, none⟩] "chairs"
    (by decide) (by decide) (by decide)

/-! ### Work store mutation (main.js event listeners, lines 274-294) -/

/-- Model of `Array.prototype.findIndex` specialized to works: the index
of the first element satisfying the predicate, `none` standing for the
JS result `-1`. -/
def jsFindIndex (p : Work → Bool) : List Work → Option Nat
  | [] => none
  | w :: rest => if p w then some 0 else (jsFindIndex p rest).map (· + 1)

/-- Embedding of the `work:deleted` splice in main.js (lines 289-291):
`findIndex` on `Number(w.id) === deletedId` followed by `splice(idx, 1)`
when the index is not `-1`. -/
def removeById (works : List Work) (i : Int) : List Work :=
  match jsFindIndex (fun w => w.id == i) works with
  | some idx => works.eraseIdx idx
  | none => works

/-- Embedding of the `work:created` listener body (main.js lines
274-280): a null event detail is ignored, otherwise the new work is
pushed onto the store. -/
def workCreatedListener (works : List Work) (detail : Option Work) : List Work :=
  match detail with
  | none => works
  | some w => works ++ [w]

/-- Embedding of the `work:deleted` listener body (main.js lines
288-294): `Number(e.detail?.id)` of a missing id is `NaN`, which matches
no element, so only a present id can splice. -/
def workDeletedListener (works : List Work) (detailId : Option Int) : List Work :=
  match detailId with
  | none => works
  | some i => removeById works i

/-- Unfolding lemma: removing by id from a cons either drops the head
(when its id matches) or keeps the head and recurses. -/
theorem removeById_cons (a : Work) (rest : List Work) (i : Int) :
    removeById (a :: rest) i =
      if a.id = i then rest else a :: removeById rest i := by
  by_cases h : a.id = i
  · simp [removeById, jsFindIndex, h, List.eraseIdx]
  · cases hfind : jsFindIndex (fun w => w.id == i) rest with
    | none => simp [removeById, jsFindIndex, h, hfind]
    | some idx => simp [removeById, jsFindIndex, h, hfind, List.eraseIdx]

/-- When no element has the given id, removal is the identity. -/
theorem removeById_not_mem (works : List Work) (i : Int)
    (h : ∀ w ∈ works, w.id ≠ i) : removeById works i = works := by
  induction works with
  | nil => rfl
  | cons a rest ih =>
    rw [removeById_cons]
    have ha : a.id ≠ i := h a (List.mem_cons_self a rest)
    rw [if_neg ha, ih (fun w hw => h w (List.mem_cons_of_mem a hw))]

/-- C7 counterexample: with a store already holding a work of id 1 and a
different work of the same id appended, the append-then-remove round
trip removes the first occurrence and keeps the appended one, so the
store does not return to its prior content. -/
theorem c7_counterexample :
    workDeletedListener
        (workCreatedListener [⟨1, "A", "", none, none⟩]
          (some ⟨1, "B", "", none, none⟩))
        (some 1) ≠ [⟨1, "A", "", none, none⟩] := by
  decide

/-- C7 amended: for every work store state and every work whose id does
not already occur in the store, appending the work (the `work:created`
path) and then removing its id (the `work:deleted` path) restores the
store to its content before the append. -/
theorem c7_amended_append_remove_roundtrip (works : List Work) (w : Work)
    (hfresh : ∀ w' ∈ works, w'.id ≠ w.id) :
    workDeletedListener (workCreatedListener works (some w)) (some w.id) = works := by
  show removeById (works ++ [w]) w.id = works
  induction works with
  | nil =>
    rw [List.nil_append]
    rw [removeById_cons]
    simp
  | cons a rest ih =>
    rw [List.cons_append, removeById_cons]
    have ha : a.id ≠ w.id := hfresh a (List.mem_cons_self a rest)
    rw [if_neg ha, ih (fun w' hw' => hfresh w' (List.mem_cons_of_mem a hw'))]

/-- Witness for the amended C7: appending a fresh work of id 2 to a
one-work store of id 1 and removing id 2 restores the store. -/
theorem c7_amended_witness :
    workDeletedListener
        (workCreatedListener [⟨1, "A", "", none, none⟩]
          (some ⟨2, "B", "", none, none⟩))
        (some (2 : Int)) = [⟨1, "A", "", none, none⟩] :=
  c7_amended_append_remove_roundtrip [⟨1, "A", "", none, none⟩]
    ⟨2, "B", "", none, none⟩ (by decide)

/-- C8: removing an id absent from the store (the `work:deleted` path)
is a benign no-op: the store is unchanged (hence so is its size) and the
gallery rendered from it under any filter is unchanged; the embedded
listener is a total function, so no error is raised. -/
theorem c8_remove_absent_id_noop (works : List Work) (i : Int) (p : Option String)
    (habsent : ∀ w ∈ works, w.id ≠ i) :
    workDeletedListener works (some i) = works ∧
    renderByCurrentFilter (workDeletedListener works (some i)) p =
      renderByCurrentFilter works p := by
  have h : workDeletedListener works (some i) = works := removeById_not_mem works i habsent
  exact ⟨h, by rw [h]⟩

/-- Witness for C8: removing the absent id 99 from a two-work store. -/
theorem c8_witness :
    workDeletedListener
        [⟨1, "A", "", none, none⟩, ⟨2, "B", "", none, none⟩] (some 99) =
      [⟨1, "A", "", none, none⟩, ⟨2, "B", "", none, none⟩] ∧
    renderByCurrentFilter
        (workDeletedListener
          [⟨1, "A", "", none, none⟩, ⟨2, "B", "", none, none⟩] (some 99)) none =
      renderByCurrentFilter
        [⟨1, "A", "", none, none⟩, ⟨2, "B", "", none, none⟩] none :=
  c8_remove_absent_id_noop
    [⟨1, "A", "", none, none⟩, ⟨2, "B", "", none, none⟩] 99 none (by decide)

/-! ### Unique categories (src/unnamed/part_010, lines 24-35) -/

/-- Embedding of `works.map(work => work.category)` as consumed by
`getUniqueCategories`: accessing `category.id` on a work without a
category would throw in JS, modelled by `none`. -/
def projectCategories : List Work → Option (List WorkCat)
  | [] => some []
  | w :: rest =>
    match w.category, projectCategories rest with
    | some c, some cs => some (c :: cs)
    | _, _ => none

/-- Embedding of the dedup filter of `getUniqueCategories`: a growing
`Set` of seen `category.id` values (the id is added whether or not it
was a duplicate) and only first occurrences are kept. -/
def dedupById (seen : List (Option Int)) : List WorkCat → List WorkCat
  | [] => []
  | c :: rest =>
    if c.id ∈ seen then dedupById (c.id :: seen) rest
    else c :: dedupById (c.id :: seen) rest

/-- Embedding of `getUniqueCategories` from part_010 (lines 24-35): the
embedded category objects of the fetched works, deduplicated by
`category.id`, keeping first occurrences in order. -/
def getUniqueCategories (works : List Work) : Option (List WorkCat) :=
  (projectCategories works).map (dedupById [])

/-- Characterization of the dedup pass, generalized over the seen set:
the output ids are distinct, every output element is the first element
of the input with its id and its id was unseen, and every input id is
either already seen or covered by the output. -/
theorem dedupById_spec (l : List WorkCat) : ∀ seen : List (Option Int),
    ((dedupById seen l).map (fun c => c.id)).Nodup ∧
    (∀ x ∈ dedupById seen l, x.id ∉ seen ∧
      l.find? (fun d => d.id == x.id) = some x) ∧
    (∀ c ∈ l, c.id ∈ seen ∨ c.id ∈ (dedupById seen l).map (fun c => c.id)) := by
  induction l with
  | nil => intro seen; simp [dedupById]
  | cons c rest ih =>
    intro seen
    by_cases h : c.id ∈ seen
    · have hd : dedupById seen (c :: rest) = dedupById (c.id :: seen) rest := by
        simp [dedupById, h]
      obtain ⟨ih1, ih2, ih3⟩ := ih (c.id :: seen)
      rw [hd]
      refine ⟨ih1, ?_, ?_⟩
      · intro x hx
        obtain ⟨hnotin, hfind⟩ := ih2 x hx
        have hxc : x.id ≠ c.id := fun he => hnotin (he ▸ List.mem_cons_self _ _)
        refine ⟨fun hmem => hnotin (List.mem_cons_of_mem _ hmem), ?_⟩
        rw [List.find?_cons_of_neg _ (by simp [hxc.symm]), hfind]
      · intro d hd'
        rcases List.mem_cons.mp hd' with he | hm
        · exact Or.inl (he ▸ h)
        · rcases ih3 d hm with hseen | hout
          · rcases List.mem_cons.mp hseen with he | hs
            · exact Or.inl (he ▸ h)
            · exact Or.inl hs
          · exact Or.inr hout
    · have hd : dedupById seen (c :: rest) = c :: dedupById (c.id :: seen) rest := by
        simp [dedupById, h]
      obtain ⟨ih1, ih2, ih3⟩ := ih (c.id :: seen)
      rw [hd]
      refine ⟨?_, ?_, ?_⟩
      · rw [List.map_cons, List.nodup_cons]
        refine ⟨?_, ih1⟩
        intro hmem
        rcases List.mem_map.mp hmem with ⟨x, hx, hxid⟩
        exact (ih2 x hx).1 (hxid ▸ List.mem_cons_self _ _)
      · intro x hx
        rcases List.mem_cons.mp hx with he | hm
        · subst he
          exact ⟨h, List.find?_cons_of_pos _ (by simp)⟩
        · obtain ⟨hnotin, hfind⟩ := ih2 x hm
          have hxc : x.id ≠ c.id := fun he => hnotin (he ▸ List.mem_cons_self _ _)
          refine ⟨fun hmem => hnotin (List.mem_cons_of_mem _ hmem), ?_⟩
          rw [List.find?_cons_of_neg _ (by simp [hxc.symm]), hfind]
      · intro d hd'
        rcases List.mem_cons.mp hd' with he | hm
        · rw [he, List.map_cons]
          exact Or.inr (List.mem_cons_self _ _)
        · rcases ih3 d hm with hseen | hout
          · rcases List.mem_cons.mp hseen with he | hs
            · rw [he, List.map_cons]
              exact Or.inr (List.mem_cons_self _ _)
            · exact Or.inl hs
          · rw [List.map_cons]
            exact Or.inr (List.mem_cons_of_mem _ hout)

/-- The dedup pass returns a sublist of its input (first-occurrence
order preserved). -/
theorem dedupById_sublist (l : List WorkCat) : ∀ seen,
    (dedupById seen l).Sublist l := by
  induction l with
  | nil => intro seen; simp [dedupById]
  | cons c rest ih =>
    intro seen
    by_cases h : c.id ∈ seen
    · have hd : dedupById seen (c :: rest) = dedupById (c.id :: seen) rest := by
        simp [dedupById, h]
      rw [hd]
      exact (ih _).cons c
    · have hd : dedupById seen (c :: rest) = c :: dedupById (c.id :: seen) rest := by
        simp [dedupById, h]
      rw [hd]
      exact (ih _).cons₂ c

/-- C10: the filter-button category list is computed from the fetched
works: when every fetched work embeds a category object,
`getUniqueCategories` returns those embedded objects deduplicated by
`category.id` only — an order-preserving sublist of the projection with
pairwise-distinct ids, covering every occurring id, where each kept
object is the first occurrence of its id (so the first-seen name wins);
in particular every returned category comes from some fetched work. -/
theorem c10_unique_categories_from_works (works : List Work)
    (proj : List WorkCat) (cats : List WorkCat)
    (hproj : projectCategories works = some proj)
    (hcats : getUniqueCategories works = some cats) :
    cats.Sublist proj ∧
    (cats.map (fun c => c.id)).Nodup ∧
    (∀ c ∈ proj, c.id ∈ cats.map (fun c => c.id)) ∧
    (∀ x ∈ cats, proj.find? (fun d => d.id == x.id) = some x) := by
  have hc : cats = dedupById [] proj := by
    unfold getUniqueCategories at hcats
    rw [hproj] at hcats
    exact (Option.some_injective _ hcats).symm
  subst hc
  obtain ⟨h1, h2, h3⟩ := dedupById_spec proj []
  refine ⟨dedupById_sublist proj [], h1, ?_, fun x hx => (h2 x hx).2⟩
  intro c hcmem
  rcases h3 c hcmem with hseen | hout
  · exact absurd hseen (List.not_mem_nil _)
  · exact hout

/-- Witness for C10: three works, the second sharing id 1 with the first
under a different name — that name is dropped, the first-seen one wins,
and first-occurrence order is kept. -/
theorem c10_witness :
    (([⟨some 1, some "Objets"⟩, ⟨some 2, some "Appartements"⟩] : List WorkCat).Sublist
        [⟨some 1, some "Objets"⟩, ⟨some 1, some "ObjetsDup"⟩, ⟨some 2, some "Appartements"⟩]) ∧
    (([⟨some 1, some "Objets"⟩, ⟨some 2, some "Appartements"⟩] : List WorkCat).map
        (fun c => c.id)).Nodup ∧
    (∀ c ∈ ([⟨some 1, some "Objets"⟩, ⟨some 1, some "ObjetsDup"⟩,
        ⟨some 2, some "Appartements"⟩] : List WorkCat),
      c.id ∈ ([⟨some 1, some "Objets"⟩, ⟨some 2, some "Appartements"⟩] : List WorkCat).map
        (fun c => c.id)) ∧
    (∀ x ∈ ([⟨some 1, some "Objets"⟩, ⟨some 2, some "Appartements"⟩] : List WorkCat),
      ([⟨some 1, some "Objets"⟩, ⟨some 1, some "ObjetsDup"⟩,
        ⟨some 2, some "Appartements"⟩] : List WorkCat).find?
        (fun d => d.id == x.id) = some x) :=
  c10_unique_categories_from_works
    [⟨1, "a", "", some ⟨some 1, some "Objets"⟩, none⟩,
     ⟨2, "b", "", some ⟨some 1, some "ObjetsDup"⟩, none⟩,
     ⟨3, "c", "", some ⟨some 2, some "Appartements"⟩, none⟩]
    [⟨some 1, some "Objets"⟩, ⟨some 1, some "ObjetsDup"⟩, ⟨some 2, some "Appartements"⟩]
    [⟨some 1, some "Objets"⟩, ⟨some 2, some "Appartements"⟩]
    (by decide) (by decide)

/-! ### Generic request helper fetchData
(src/unnamed/part_005, lines 88-148: the revision of api.js that owns
createWork and the FormData-aware helper) -/

/-- A request body argument: a plain object (a record of string fields)
or a `FormData` instance (a list of multipart entries). -/
inductive BodyVal
  | plain (fields : List (String × String))
  | formData (entries : List (String × String))
deriving DecidableEq, Repr

/-- The body actually handed to `fetch`: either the `JSON.stringify` of
a plain object, or the `FormData` passed through untouched. -/
inductive SentBody
  | jsonStringified (fields : List (String × String))
  | formData (entries : List (String × String))
deriving DecidableEq, Repr

/-- Lookup of a header key in a JS header object (exact key match). -/
def getHeader (hs : List (String × String)) (k : String) : Option String :=
  (hs.find? (fun h => h.1 == k)).map (fun h => h.2)

/-- Model of `delete init.headers[k]`: the exact key is removed. -/
def deleteHeader (hs : List (String × String)) (k : String) : List (String × String) :=
  hs.filter (fun h => !(h.1 == k))

/-- Model of `init.headers[k] = v`: overwrite in place when the key
exists, append otherwise. -/
def jsSetHeader (hs : List (String × String)) (k v : String) : List (String × String) :=
  if hs.any (fun h => h.1 == k) then hs.map (fun h => if h.1 == k then (k, v) else h)
  else hs ++ [(k, v)]

/-- Model of `String.prototype.toUpperCase` on ASCII (methods are ASCII
strings). -/
def jsToUpperStr (s : String) : String :=
  ⟨s.data.map (fun c => if 97 ≤ c.toNat && c.toNat ≤ 122 then Char.ofNat (c.toNat - 32) else c)⟩

/-- The `init` object built by `fetchData` before calling `fetch`. -/
structure FetchInit where
  method : String
  headers : List (String × String)
  body : Option SentBody
deriving DecidableEq, Repr

/-- Embedding of the request-building half of `fetchData` (part_005
lines 118-132): a null body sends none; a `FormData` body is passed
through and the `Content-Type` key is deleted; a plain body is
JSON-stringified and `Content-Type` defaults to `application/json`
when missing or empty. -/
def fetchInit (method : String) (headers : List (String × String))
    (body : Option BodyVal) : FetchInit :=
  match body with
  | none => { method := jsToUpperStr method, headers := headers, body := none }
  | some (.formData fd) =>
    { method := jsToUpperStr method
      headers := deleteHeader headers "Content-Type"
      body := some (.formData fd) }
  | some (.plain o) =>
    { method := jsToUpperStr method
      headers :=
        if (getHeader headers "Content-Type").getD "" ≠ "" then headers
        else jsSetHeader headers "Content-Type" "application/json"
      body := some (.jsonStringified o) }

/-- The response as `fetchData` observes it: status, the `Content-Type`
response header, and the payload that `response.json()` would parse. -/
structure JsResponse where
  status : Nat
  contentType : Option String
  body : String
deriving DecidableEq, Repr

/-- The settled outcome of `fetchData`: a thrown error carrying the
status, or a resolved value (`none` standing for `undefined`, `some`
for the parsed JSON payload). -/
inductive FetchOutcome
  | thrown (status : Nat)
  | ok (v : Option String)
deriving DecidableEq, Repr

/-- Substring test: does `pat` occur contiguously in the second list
(model of `String.prototype.includes`). -/
def hasSub (pat : List Char) : List Char → Bool
  | [] => pat.isEmpty
  | c :: rest => pat.isPrefixOf (c :: rest) || hasSub pat rest

/-- Embedding of the response-handling half of `fetchData` (part_005
lines 134-147): non-2xx throws an error carrying the status, 204
resolves to undefined, a 2xx response resolves to parsed JSON exactly
when the lowercased `Content-Type` contains `application/json`, and to
undefined otherwise. -/
def fetchHandle (resp : JsResponse) : FetchOutcome :=
  if !(200 ≤ resp.status && resp.status ≤ 299) then .thrown resp.status
  else if resp.status = 204 then .ok none
  else if !(hasSub "application/json".data (jsToLowerStr (resp.contentType.getD "")).data)
    then .ok none
  else .ok (some resp.body)

/-- C4: the generic request helper (a) passes a FormData body through
untouched with no `Content-Type` header forced on it while a plain
object body is JSON-encoded, (b) turns every non-2xx status into an
error carrying that status, (c) resolves a 204 response to undefined,
and (d) resolves a 2xx response to parsed JSON exactly when the
response declares a JSON content type, and to undefined otherwise. -/
theorem c4_fetch_data_contract (m : String) (headers : List (String × String))
    (fd o : List (String × String)) (resp : JsResponse) :
    ((fetchInit m headers (some (.formData fd))).body = some (.formData fd) ∧
      getHeader (fetchInit m headers (some (.formData fd))).headers "Content-Type" = none) ∧
    (fetchInit m headers (some (.plain o))).body = some (.jsonStringified o) ∧
    (resp.status < 200 ∨ 299 < resp.status → fetchHandle resp = .thrown resp.status) ∧
    (resp.status = 204 → fetchHandle resp = .ok none) ∧
    (200 ≤ resp.status → resp.status ≤ 299 → resp.status ≠ 204 →
      (hasSub "application/json".data (jsToLowerStr (resp.contentType.getD "")).data = true →
        fetchHandle resp = .ok (some resp.body)) ∧
      (hasSub "application/json".data (jsToLowerStr (resp.contentType.getD "")).data = false →
        fetchHandle resp = .ok none)) := by
  refine ⟨⟨rfl, ?_⟩, rfl, ?_, ?_, ?_⟩
  · show ((deleteHeader headers "Content-Type").find?
        (fun h => h.1 == "Content-Type")).map (fun h => h.2) = none
    have hf : (deleteHeader headers "Content-Type").find?
        (fun h => h.1 == "Content-Type") = none := by
      rw [List.find?_eq_none]
      intro x hx
      have := (List.mem_filter.mp hx).2
      simpa using this
    rw [hf]
    rfl
  · intro hout
    unfold fetchHandle
    have : (200 ≤ resp.status && resp.status ≤ 299) = false := by
      rcases hout with h | h
      · simp [Nat.not_le.mpr h]
      · simp [Nat.not_le.mpr h]
    rw [this]
    rfl
  · intro h204
    unfold fetchHandle
    rw [h204]
    rfl
  · intro hlo hhi hne
    have hok : (200 ≤ resp.status && resp.status ≤ 299) = true := by
      simp [hlo, hhi]
    constructor
    · intro hct
      unfold fetchHandle
      rw [hok, hct]
      simp [hne]
    · intro hct
      unfold fetchHandle
      rw [hok, hct]
      simp [hne]

/-- Witness for C4: a FormData request with a caller-supplied
Content-Type header, a 404 response, a 204 response, a JSON 200
response with a parametered content type, and a non-JSON 200
response. -/
theorem c4_witness :
    (fetchInit "post" [("Content-Type", "application/json"), ("Authorization", "Bearer t")]
        (some (.formData [("title", "x")]))).body = some (.formData [("title", "x")]) ∧
    getHeader (fetchInit "post" [("Content-Type", "application/json"), ("Authorization", "Bearer t")]
        (some (.formData [("title", "x")]))).headers "Content-Type" = none ∧
    fetchHandle ⟨404, some "application/json", "err"⟩ = .thrown 404 ∧
    fetchHandle ⟨204, none, ""⟩ = .ok none ∧
    fetchHandle ⟨200, some "Application/JSON; charset=utf-8", "payload"⟩ = .ok (some "payload") ∧
    fetchHandle ⟨200, some "text/html", "page"⟩ = .ok none := by
  have h1 := c4_fetch_data_contract "post"
    [("Content-Type", "application/json"), ("Authorization", "Bearer t")]
    [("title", "x")] [] ⟨404, some "application/json", "err"⟩
  have h2 := c4_fetch_data_contract "post" [] [] [] ⟨204, none, ""⟩
  have h3 := c4_fetch_data_contract "post" [] [] []
    ⟨200, some "Application/JSON; charset=utf-8", "payload"⟩
  have h4 := c4_fetch_data_contract "post" [] [] [] ⟨200, some "text/html", "page"⟩
  refine ⟨h1.1.1, h1.1.2, ?_, ?_, ?_, ?_⟩
  · exact h1.2.2.1 (Or.inr (by decide))
  · exact h2.2.2.2.1 rfl
  · exact (h3.2.2.2.2 (by decide) (by decide) (by decide)).1 (by decide)
  · exact (h4.2.2.2.2 (by decide) (by decide) (by decide)).2 (by decide)

/-! ### Create-response normalization
(dom.js handleUploadSubmit, lines 1084-1091) -/

/-- Embedding of the normalization in `handleUploadSubmit`: the spread
`{...newWork, category: newWork?.category?.name ? newWork.category :
{id: Number(category), name: selectedCategoryName}}` where
`selectedCategoryName` is the selected option label run through
`?.textContent?.trim() || ""`. A response category whose name is
missing or empty (falsy) is replaced by the synthesized embedded
object; a truthy name keeps the response category unchanged. -/
def normalizeCreatedWork (resp : Work) (selectedId : Int) (selectedLabel : String) : Work :=
  let selectedCategoryName := jsTrimStr selectedLabel
  if ((resp.category.bind (fun c => c.name)).getD "") ≠ "" then resp
  else { resp with category := some ⟨some selectedId, some selectedCategoryName⟩ }

/-- C5 counterexample: a create response without a category name,
normalized against the selected option label `" Objets "` (label with
surrounding whitespace), stores the name `"Objets"`, which is not the
selected option label itself — the code trims the label before
synthesizing the category. -/
theorem c5_counterexample :
    ((normalizeCreatedWork ⟨7, "t", "", none, none⟩ 10 " Objets ").category.bind
        (fun c => c.name)) = some "Objets" ∧
    (some "Objets" : Option String) ≠ some " Objets " := by
  constructor
  · rfl
  · decide

/-- C5 amended: for every successful create whose response category
name is missing or empty, the stored work is the response with its
category replaced by the embedded object of the selected category id
(as a number) and the selected option label trimmed of leading and
trailing whitespace; a response that embeds a category with a non-empty
name is kept unchanged; the other fields of the response are never
touched. -/
theorem c5_amended_normalize_created_work (resp : Work) (selId : Int) (label : String) :
    (((resp.category.bind (fun c => c.name)).getD "") = "" →
      normalizeCreatedWork resp selId label =
        { resp with category := some ⟨some selId, some (jsTrimStr label)⟩ }) ∧
    (((resp.category.bind (fun c => c.name)).getD "") ≠ "" →
      normalizeCreatedWork resp selId label = resp) ∧
    (normalizeCreatedWork resp selId label).id = resp.id ∧
    (normalizeCreatedWork resp selId label).title = resp.title ∧
    (normalizeCreatedWork resp selId label).imageUrl = resp.imageUrl := by
  refine ⟨?_, ?_, ?_, ?_, ?_⟩
  · intro hempty
    unfold normalizeCreatedWork
    rw [if_neg (by simp [hempty])]
  · intro hname
    unfold normalizeCreatedWork
    rw [if_pos hname]
  all_goals
    unfold normalizeCreatedWork
    by_cases h : ((resp.category.bind (fun c => c.name)).getD "") ≠ ""
    · rw [if_pos h]
    · rw [if_neg h]

/-- Witness for the amended C5: a response of id 7 with no category,
normalized with selected id 10 and label `"Objets"`. -/
theorem c5_amended_witness :
    ((((⟨7, "t", "u", none, none⟩ : Work).category.bind (fun c => c.name)).getD "") = "" →
      normalizeCreatedWork ⟨7, "t", "u", none, none⟩ 10 "Objets" =
        { (⟨7, "t", "u", none, none⟩ : Work) with
            category := some ⟨some 10, some (jsTrimStr "Objets")⟩ }) ∧
    ((((⟨7, "t", "u", none, none⟩ : Work).category.bind (fun c => c.name)).getD "") ≠ "" →
      normalizeCreatedWork ⟨7, "t", "u", none, none⟩ 10 "Objets" = ⟨7, "t", "u", none, none⟩) ∧
    (normalizeCreatedWork ⟨7, "t", "u", none, none⟩ 10 "Objets").id = (7 : Int) ∧
    (normalizeCreatedWork ⟨7, "t", "u", none, none⟩ 10 "Objets").title = "t" ∧
    (normalizeCreatedWork ⟨7, "t", "u", none, none⟩ 10 "Objets").imageUrl = "u" :=
  c5_amended_normalize_created_work ⟨7, "t", "u", none, none⟩ 10 "Objets"

/-! ### Title sanitizer (dom.js mountTitleField, lines 869-905) -/

/-- Embedding of the character class retained by the first replace of
`cleanse` (dom.js line 876), the complement of `[^A-Za-zÀ-ÿ0-9 \-'"`]`:
ASCII letters, the full Latin-1 range U+00C0-U+00FF, digits, space,
hyphen, apostrophe, double quote, backtick. -/
def titleAllowed (c : Char) : Bool :=
  let n := c.toNat
  (65 ≤ n && n ≤ 90) || (97 ≤ n && n ≤ 122) || (0xC0 ≤ n && n ≤ 0xFF) ||
  (48 ≤ n && n ≤ 57) || n = 32 || n = 45 || n = 39 || n = 34 || n = 96

/-- Embedding of `cleanse` from `mountTitleField` (dom.js lines
875-877): strip every character outside the allow-list, collapse
whitespace runs of length at least two to a single space, strip leading
whitespace, and truncate to 100 characters. -/
def cleanse (s : String) : String :=
  let l1 := s.data.filter titleAllowed
  let l2 := replaceWsRuns 2 [' '] l1
  let l3 := l2.dropWhile jsIsSpace
  ⟨l3.take 100⟩

/-- Formalization of the allow-list as the spec words it, used only to
compare the spec against the code: letters are modelled as ASCII
letters, Latin-1 letters (U+00C0-U+00FF without the two non-letter
symbols U+00D7 and U+00F7) and Latin Extended-A letters
(U+0100-U+017F); plus digits, space, hyphen, apostrophe, double quote,
backtick. -/
def specTitleAllowed (c : Char) : Bool :=
  let n := c.toNat
  (65 ≤ n && n ≤ 90) || (97 ≤ n && n ≤ 122) ||
  (0xC0 ≤ n && n ≤ 0xFF && n ≠ 0xD7 && n ≠ 0xF7) ||
  (0x100 ≤ n && n ≤ 0x17F) ||
  (48 ≤ n && n ≤ 57) || n = 32 || n = 45 || n = 39 || n = 34 || n = 96

/-- Boolean predicate: no two adjacent characters of the list are both
whitespace. -/
def noAdjWs : List Char → Bool
  | a :: b :: rest => (!(jsIsSpace a && jsIsSpace b)) && noAdjWs (b :: rest)
  | _ => true

/-- Boolean predicate: the list is empty or starts with a non-space. -/
def headNotWs : List Char → Bool
  | [] => true
  | c :: _ => !jsIsSpace c

/-- Lists of length at most one trivially have no adjacent spaces. -/
theorem noAdjWs_of_short (l : List Char) (h : l.length ≤ 1) : noAdjWs l = true := by
  match l with
  | [] => rfl
  | [_] => rfl
  | _ :: _ :: _ => simp at h

/-- Prepending a character in front of a list whose head is not a space
preserves the no-adjacent-spaces property. -/
theorem noAdjWs_cons_of_head (a : Char) (l : List Char)
    (hl : headNotWs l = true) (h : noAdjWs l = true) : noAdjWs (a :: l) = true := by
  match l with
  | [] => rfl
  | b :: t =>
    have hb : jsIsSpace b = false := by
      simpa [headNotWs] using hl
    show ((!(jsIsSpace a && jsIsSpace b)) && noAdjWs (b :: t)) = true
    rw [hb, h]
    simp

/-- Prepending a non-space character preserves the no-adjacent-spaces
property. -/
theorem noAdjWs_cons_fst (a : Char) (l : List Char)
    (ha : jsIsSpace a = false) (h : noAdjWs l = true) : noAdjWs (a :: l) = true := by
  match l with
  | [] => rfl
  | b :: t =>
    show ((!(jsIsSpace a && jsIsSpace b)) && noAdjWs (b :: t)) = true
    rw [ha, h]
    simp

/-- The no-adjacent-spaces property passes to the tail. -/
theorem noAdjWs_tail (a : Char) (l : List Char) (h : noAdjWs (a :: l) = true) :
    noAdjWs l = true := by
  match l with
  | [] => rfl
  | b :: t =>
    have := (Bool.and_eq_true _ _).mp h
    exact this.2

/-- Taking a prefix preserves the no-adjacent-spaces property. -/
theorem noAdjWs_take (l : List Char) : ∀ n, noAdjWs l = true →
    noAdjWs (l.take n) = true := by
  induction l with
  | nil => intro n _; simp [noAdjWs]
  | cons a t ih =>
    intro n h
    match n with
    | 0 => rfl
    | Nat.succ m =>
      rw [List.take_succ_cons]
      match t, m with
      | [], _ => simp [noAdjWs]
      | b :: t', 0 => rfl
      | b :: t', Nat.succ m' =>
        have hpair : (!(jsIsSpace a && jsIsSpace b)) = true := ((Bool.and_eq_true _ _).mp h).1
        have htail : noAdjWs ((b :: t').take (Nat.succ m')) = true :=
          ih (Nat.succ m') (noAdjWs_tail a _ h)
        rw [List.take_succ_cons] at htail ⊢
        show ((!(jsIsSpace a && jsIsSpace b)) && noAdjWs (b :: t'.take m')) = true
        rw [hpair, htail]
        rfl

/-- Dropping a whitespace prefix preserves the no-adjacent-spaces
property. -/
theorem noAdjWs_dropWhile (l : List Char) (h : noAdjWs l = true) :
    noAdjWs (l.dropWhile jsIsSpace) = true := by
  induction l with
  | nil => rfl
  | cons a t ih =>
    rw [List.dropWhile_cons]
    by_cases ha : jsIsSpace a = true
    · rw [if_pos ha]
      exact ih (noAdjWs_tail a t h)
    · rw [if_neg ha]
      exact h

/-- The result of dropping the leading whitespace starts with a
non-space. -/
theorem headNotWs_dropWhile (l : List Char) :
    headNotWs (l.dropWhile jsIsSpace) = true := by
  induction l with
  | nil => rfl
  | cons a t ih =>
    rw [List.dropWhile_cons]
    by_cases ha : jsIsSpace a = true
    · rw [if_pos ha]; exact ih
    · rw [if_neg ha]
      simpa [headNotWs] using ha

/-- Taking a prefix preserves a non-space head. -/
theorem headNotWs_take (l : List Char) (n : Nat) (h : headNotWs l = true) :
    headNotWs (l.take n) = true := by
  match l, n with
  | [], _ => rw [List.take_nil]; rfl
  | _ :: _, 0 => rfl
  | c :: t, Nat.succ m => exact h

/-- The whitespace-run collapser with replacement by a single space
never produces two adjacent whitespace characters. -/
theorem noAdjWs_rwrAux (l : List Char) : ∀ run : List Char,
    noAdjWs (rwrAux 2 [' '] run l) = true := by
  induction l with
  | nil =>
    intro run
    show noAdjWs (emitRun 2 [' '] run) = true
    unfold emitRun
    by_cases h0 : run.isEmpty
    · rw [if_pos h0]; rfl
    · rw [if_neg h0]
      by_cases h2 : 2 ≤ run.length
      · rw [if_pos h2]; rfl
      · rw [if_neg h2]
        exact noAdjWs_of_short run (by omega)
  | cons c rest ih =>
    intro run
    show noAdjWs (if jsIsSpace c then rwrAux 2 [' '] (run ++ [c]) rest
                  else emitRun 2 [' '] run ++ c :: rwrAux 2 [' '] [] rest) = true
    by_cases hc : jsIsSpace c = true
    · rw [if_pos hc]
      exact ih (run ++ [c])
    · rw [if_neg hc]
      have hcb : jsIsSpace c = false := by
        simpa using hc
      have hcons : noAdjWs (c :: rwrAux 2 [' '] [] rest) = true :=
        noAdjWs_cons_fst c _ hcb (ih [])
      have hchead : headNotWs (c :: rwrAux 2 [' '] [] rest) = true := by
        simpa [headNotWs] using hc
      unfold emitRun
      by_cases h0 : run.isEmpty
      · rw [if_pos h0]
        simpa using hcons
      · rw [if_neg h0]
        by_cases h2 : 2 ≤ run.length
        · rw [if_pos h2]
          show noAdjWs (' ' :: c :: rwrAux 2 [' '] [] rest) = true
          exact noAdjWs_cons_of_head ' ' _ hchead hcons
        · have hsing : ∃ x, run = [x] := by
            match run with
            | [] => simp at h0
            | [x] => exact ⟨x, rfl⟩
            | x :: y :: t => exfalso; apply h2; simp
          obtain ⟨x, hx⟩ := hsing
          subst hx
          show noAdjWs (x :: c :: rwrAux 2 [' '] [] rest) = true
          exact noAdjWs_cons_of_head x _ hchead hcons

/-- Every character of the collapser output satisfies any predicate
that holds on the pending run, the input and the space character. -/
theorem rwrAux_all (P : Char → Bool) (hP : P ' ' = true) (l : List Char) :
    ∀ run, (∀ c ∈ run, P c = true) → (∀ c ∈ l, P c = true) →
    ∀ c ∈ rwrAux 2 [' '] run l, P c = true := by
  induction l with
  | nil =>
    intro run hrun _ c hc
    unfold rwrAux emitRun at hc
    by_cases h0 : run.isEmpty
    · rw [if_pos h0] at hc
      exact absurd hc (List.not_mem_nil c)
    · rw [if_neg h0] at hc
      by_cases h2 : 2 ≤ run.length
      · rw [if_pos h2] at hc
        rcases List.mem_singleton.mp hc with he
        exact he ▸ hP
      · rw [if_neg h2] at hc
        exact hrun c hc
  | cons d rest ih =>
    intro run hrun hl c hc
    have hd : d ∈ d :: rest := List.mem_cons_self d rest
    show P c = true
    by_cases hds : jsIsSpace d = true
    · rw [show rwrAux 2 [' '] run (d :: rest) =
          rwrAux 2 [' '] (run ++ [d]) rest by simp [rwrAux, hds]] at hc
      refine ih (run ++ [d]) ?_ (fun x hx => hl x (List.mem_cons_of_mem d hx)) c hc
      intro x hx
      rcases List.mem_append.mp hx with h | h
      · exact hrun x h
      · exact (List.mem_singleton.mp h) ▸ hl d hd
    · rw [show rwrAux 2 [' '] run (d :: rest) =
          emitRun 2 [' '] run ++ d :: rwrAux 2 [' '] [] rest by simp [rwrAux, hds]] at hc
      rcases List.mem_append.mp hc with h | h
      · unfold emitRun at h
        by_cases h0 : run.isEmpty
        · rw [if_pos h0] at h
          exact absurd h (List.not_mem_nil c)
        · rw [if_neg h0] at h
          by_cases h2 : 2 ≤ run.length
          · rw [if_pos h2] at h
            exact (List.mem_singleton.mp h) ▸ hP
          · rw [if_neg h2] at h
            exact hrun c h
      · rcases List.mem_cons.mp h with he | hm
        · exact he ▸ hl d hd
        · exact ih [] (by intro x hx; exact absurd hx (List.not_mem_nil x))
            (fun x hx => hl x (List.mem_cons_of_mem d hx)) c hm

/-- The collapser is the identity on whitespace-free input. -/
theorem rwrAux_no_ws (l : List Char) (h : ∀ c ∈ l, jsIsSpace c = false) :
    rwrAux 2 [' '] [] l = l := by
  induction l with
  | nil => rfl
  | cons c t ih =>
    have hc : jsIsSpace c = false := h c (List.mem_cons_self c t)
    show (if jsIsSpace c then rwrAux 2 [' '] ([] ++ [c]) t
          else emitRun 2 [' '] [] ++ c :: rwrAux 2 [' '] [] t) = c :: t
    rw [if_neg (by simp [hc])]
    show emitRun 2 [' '] [] ++ c :: rwrAux 2 [' '] [] t = c :: t
    rw [ih (fun x hx => h x (List.mem_cons_of_mem c hx))]
    rfl

/-- C6 counterexample: the input `a×Œb` keeps the multiplication sign
U+00D7 (not a letter, digit, space, hyphen or quote character, hence
outside the documented allow-list) and strips the Latin letter Œ
U+0152 (a letter, hence inside the documented allow-list), so the
retained character set is not exactly the documented one. -/
theorem c6_counterexample :
    cleanse "a×Œb" = "a×b" ∧
    specTitleAllowed '×' = false ∧
    specTitleAllowed 'Œ' = true ∧
    titleAllowed '×' = true ∧
    titleAllowed 'Œ' = false := by
  refine ⟨rfl, by decide, by decide, by decide, by decide⟩

/-- C6 amended: the sanitizer retains exactly the character class of
the source regex — ASCII letters, the whole Latin-1 range
U+00C0-U+00FF (which includes × and ÷ and excludes accented letters
beyond U+00FF), digits, space, hyphen, apostrophe, double quote and
backtick; it collapses runs of two or more whitespace characters to a
single space, strips leading whitespace, truncates to 100 characters,
and maps `Chair<script>` to `Chairscript`; input made of retained
non-space characters within the length bound is kept verbatim. -/
theorem c6_amended_title_cleanse (s : String) :
    (∀ c ∈ (cleanse s).data, titleAllowed c = true) ∧
    noAdjWs (cleanse s).data = true ∧
    headNotWs (cleanse s).data = true ∧
    (cleanse s).data.length ≤ 100 ∧
    ((∀ c ∈ s.data, titleAllowed c = true ∧ jsIsSpace c = false) →
      s.data.length ≤ 100 → cleanse s = s) ∧
    cleanse "Chair<script>" = "Chairscript" := by
  refine ⟨?_, ?_, ?_, ?_, ?_, rfl⟩
  · intro c hc
    have hc' := List.take_subset 100 _ hc
    have hc'' := List.dropWhile_subset jsIsSpace hc'
    refine rwrAux_all titleAllowed (by decide) _ [] ?_ ?_ c hc''
    · intro x hx
      exact absurd hx (List.not_mem_nil x)
    · intro x hx
      exact List.of_mem_filter hx
  · exact noAdjWs_take _ 100 (noAdjWs_dropWhile _ (noAdjWs_rwrAux _ []))
  · exact headNotWs_take _ 100 (headNotWs_dropWhile _)
  · exact List.length_take_le 100 _
  · intro hall hlen
    have h1 : s.data.filter titleAllowed = s.data :=
      List.filter_eq_self.mpr (fun a ha => (hall a ha).1)
    have h2 : rwrAux 2 [' '] [] (s.data.filter titleAllowed) = s.data := by
      rw [h1]
      exact rwrAux_no_ws _ (fun c hc => (hall c hc).2)
    have h3 : (rwrAux 2 [' '] [] (s.data.filter titleAllowed)).dropWhile jsIsSpace
        = s.data := by
      rw [h2]
      match hs : s.data with
      | [] => rfl
      | c :: t =>
        rw [List.dropWhile_cons, if_neg (by simp [(hall c (hs ▸ List.mem_cons_self c t)).2])]
    show String.mk (((rwrAux 2 [' ']
        [] (s.data.filter titleAllowed)).dropWhile jsIsSpace).take 100) = s
    rw [h3, List.take_of_length_le hlen]

/-- Witness for the amended C6: the spec scenario input and a plain
already-clean title. -/
theorem c6_amended_witness :
    (∀ c ∈ (cleanse "Chair<script>").data, titleAllowed c = true) ∧
    noAdjWs (cleanse "Chair<script>").data = true ∧
    cleanse "Chair<script>" = "Chairscript" ∧
    cleanse "Chair" = "Chair" := by
  have h1 := c6_amended_title_cleanse "Chair<script>"
  have h2 := c6_amended_title_cleanse "Chair"
  exact ⟨h1.1, h1.2.1, h1.2.2.2.2.2, h2.2.2.2.2.1 (by decide) (by decide)⟩

/-! ### Dual gallery synchronization
(dom.js createWorkFigure lines 299-328, displayWorks lines 335-338,
displayModalGallery lines 630-636, wireModalDeleteDelegation lines
651-692, handleUploadSubmit lines 1093-1097; main.js listeners lines
274-294) -/

/-- A rendered gallery figure: the `data-id` correlation key and
whether it carries a delete button (modal) or a caption (public), as
built by `createWorkFigure`. -/
structure Fig where
  dataId : Int
  withDelete : Bool
deriving DecidableEq, Repr

/-- Embedding of `createWorkFigure`: the figure receives
`data-id = work.id`; the image and caption content are presentational
and not modelled. -/
def createWorkFigure (w : Work) (withDelete : Bool) : Fig :=
  ⟨w.id, withDelete⟩

/-- Embedding of `displayWorks`: the public gallery is cleared and one
caption figure per work is appended in order. -/
def renderGalleryFigs (works : List Work) : List Fig :=
  works.map (fun w => createWorkFigure w false)

/-- Embedding of `displayModalGallery`: the modal gallery is cleared
and one delete-button figure per work is appended in order. -/
def renderModalFigs (works : List Work) : List Fig :=
  works.map (fun w => createWorkFigure w true)

/-- The page state relevant to the synchronization invariant: the
in-memory work store and the figure lists of the two galleries. -/
structure AppState where
  works : List Work
  publicG : List Fig
  modalG : List Fig
deriving DecidableEq, Repr

/-- Net effect of a successful create: `handleUploadSubmit` appends the
figure of the normalized work to the public gallery and to the modal
gallery (dom.js lines 1093-1095) and dispatches `work:created`, whose
listener (main.js lines 274-280) synchronously pushes the work and
re-renders the public gallery through `renderByCurrentFilter`; the
re-render overwrites the direct public append, so the final public
gallery is the filtered rendering of the new store. -/
def createSuccess (st : AppState) (newWork : Work) (rawParam : Option String) : AppState :=
  let works' := st.works ++ [newWork]
  { works := works'
    publicG := renderGalleryFigs (renderByCurrentFilter works' rawParam)
    modalG := st.modalG ++ [createWorkFigure newWork true] }

/-- Net effect of a successful delete of the modal figure at index `i`:
`wireModalDeleteDelegation` (dom.js lines 656-691) removes the clicked
figure from the modal gallery and the matching `data-id` figure from
the public gallery, then dispatches `work:deleted`, whose listener
(main.js lines 288-294) splices the store by id and re-renders the
public gallery through `renderByCurrentFilter`; the re-render
supersedes the direct public removal. An out-of-range index means no
delete button was clicked and the state is unchanged. -/
def deleteSuccess (st : AppState) (i : Nat) (rawParam : Option String) : AppState :=
  match st.modalG[i]? with
  | none => st
  | some fig =>
    let works' := removeById st.works fig.dataId
    { works := works'
      publicG := renderGalleryFigs (renderByCurrentFilter works' rawParam)
      modalG := st.modalG.eraseIdx i }

/-- The synchronization invariant: the modal gallery shows exactly the
work store and the public gallery shows the store restricted by the
active filter (the URL parameter), both without any page reload (the
state is only ever updated in place). -/
def galleriesInSync (st : AppState) (rawParam : Option String) : Prop :=
  st.modalG = renderModalFigs st.works ∧
  st.publicG = renderGalleryFigs (renderByCurrentFilter st.works rawParam)

instance (st : AppState) (rawParam : Option String) :
    Decidable (galleriesInSync st rawParam) := by
  unfold galleriesInSync
  infer_instance

/-- Mapping commutes with index erasure. -/
theorem map_eraseIdx {α β : Type} (f : α → β) (l : List α) :
    ∀ i, (l.eraseIdx i).map f = (l.map f).eraseIdx i := by
  induction l with
  | nil => intro i; rfl
  | cons a t ih =>
    intro i
    match i with
    | 0 => simp [List.eraseIdx_cons_zero]
    | Nat.succ m =>
      rw [List.eraseIdx_cons_succ, List.map_cons, List.map_cons,
        List.eraseIdx_cons_succ, ih m]

/-- With pairwise-distinct ids, removing by the id of the element at
index `i` erases exactly index `i`. -/
theorem removeById_eq_eraseIdx (works : List Work) : ∀ (i : Nat) (w : Work),
    works[i]? = some w → ((works.map (fun x => x.id)).Nodup) →
    removeById works w.id = works.eraseIdx i := by
  induction works with
  | nil => intro i w hw _; simp at hw
  | cons a rest ih =>
    intro i w hw hnd
    rw [List.map_cons, List.nodup_cons] at hnd
    match i with
    | 0 =>
      have ha : a = w := by simpa using hw
      subst ha
      rw [removeById_cons, if_pos rfl, List.eraseIdx_cons_zero]
    | Nat.succ m =>
      have hm : rest[m]? = some w := by simpa using hw
      have hwmem : w ∈ rest := List.getElem?_mem hm
      have haw : a.id ≠ w.id := by
        intro he
        exact hnd.1 (he ▸ List.mem_map_of_mem (fun x => x.id) hwmem)
      rw [removeById_cons, if_neg haw, List.eraseIdx_cons_succ,
        ih m w hm hnd.2]

/-- With pairwise-distinct ids, the id of the erased element no longer
occurs after erasure. -/
theorem id_not_mem_eraseIdx (works : List Work) : ∀ (i : Nat) (w : Work),
    works[i]? = some w → ((works.map (fun x => x.id)).Nodup) →
    w.id ∉ (works.eraseIdx i).map (fun x => x.id) := by
  induction works with
  | nil => intro i w hw _; simp at hw
  | cons a rest ih =>
    intro i w hw hnd
    rw [List.map_cons, List.nodup_cons] at hnd
    match i with
    | 0 =>
      have ha : a = w := by simpa using hw
      subst ha
      rw [List.eraseIdx_cons_zero]
      exact hnd.1
    | Nat.succ m =>
      have hm : rest[m]? = some w := by simpa using hw
      have hwmem : w ∈ rest := List.getElem?_mem hm
      have haw : a.id ≠ w.id := by
        intro he
        exact hnd.1 (he ▸ List.mem_map_of_mem (fun x => x.id) hwmem)
      rw [List.eraseIdx_cons_succ, List.map_cons]
      intro hmem
      rcases List.mem_cons.mp hmem with he | hm'
      · exact haw he.symm
      · exact ih m w hm hnd.2 hm'

/-- The filtered rendering only draws from the store. -/
theorem mem_renderByCurrentFilter (works : List Work) (p : Option String)
    (w : Work) (h : w ∈ renderByCurrentFilter works p) : w ∈ works := by
  unfold renderByCurrentFilter at h
  rcases hq : getCategoryNameFromQueryParam p with _ | slug
  · rw [hq] at h; exact h
  · rw [hq] at h
    dsimp only at h
    by_cases hs : slug ≠ "all"
    · rw [if_pos hs] at h
      exact List.mem_of_mem_filter h
    · rw [if_neg hs] at h
      exact h

/-- C1: starting from synchronized galleries over a store with
pairwise-distinct ids, a successful create appends one figure keyed by
the new work id to both galleries (the public one under the `all` or
absent filter; in general the public gallery is the filter-restricted
rendering of the new store) and a successful delete removes the figure
with the deleted id from both galleries; in both cases the galleries
are synchronized again — they show the same set of works, the public
one restricted by the active filter — with no page reload modelled. -/
theorem c1_galleries_stay_in_sync (st : AppState) (w : Work) (p : Option String)
    (i : Nat) (fig : Fig)
    (hsync : galleriesInSync st p)
    (hnd : (st.works.map (fun x => x.id)).Nodup)
    (hfig : st.modalG[i]? = some fig) :
    (galleriesInSync (createSuccess st w p) p ∧
      (createSuccess st w p).modalG = st.modalG ++ [createWorkFigure w true] ∧
      (p = none → (createSuccess st w p).publicG =
        st.publicG ++ [createWorkFigure w false])) ∧
    (galleriesInSync (deleteSuccess st i p) p ∧
      (deleteSuccess st i p).modalG = st.modalG.eraseIdx i ∧
      fig.dataId ∉ (deleteSuccess st i p).modalG.map (fun f => f.dataId) ∧
      fig.dataId ∉ (deleteSuccess st i p).works.map (fun x => x.id) ∧
      fig.dataId ∉ (deleteSuccess st i p).publicG.map (fun f => f.dataId)) := by
  obtain ⟨hmodal, hpublic⟩ := hsync
  -- the clicked modal figure is the delete figure of the work at index i
  have hwork : ∃ wd, st.works[i]? = some wd ∧ fig = createWorkFigure wd true := by
    rw [hmodal] at hfig
    unfold renderModalFigs at hfig
    rw [List.getElem?_map] at hfig
    rcases hw : st.works[i]? with _ | wd
    · rw [hw] at hfig; simp at hfig
    · rw [hw] at hfig
      refine ⟨wd, rfl, ?_⟩
      simpa using hfig.symm
  obtain ⟨wd, hwd, hfigeq⟩ := hwork
  constructor
  · refine ⟨⟨?_, rfl⟩, rfl, ?_⟩
    · show st.modalG ++ [createWorkFigure w true] = renderModalFigs (st.works ++ [w])
      rw [hmodal]
      unfold renderModalFigs
      rw [List.map_append]
      rfl
    · intro hp
      subst hp
      show renderGalleryFigs (renderByCurrentFilter (st.works ++ [w]) none) =
        st.publicG ++ [createWorkFigure w false]
      rw [hpublic]
      show renderGalleryFigs (st.works ++ [w]) =
        renderGalleryFigs (renderByCurrentFilter st.works none) ++ [createWorkFigure w false]
      show (st.works ++ [w]).map (fun x => createWorkFigure x false) =
        renderGalleryFigs st.works ++ [createWorkFigure w false]
      rw [List.map_append]
      rfl
  · have hdel : deleteSuccess st i p =
        { works := removeById st.works fig.dataId
          publicG := renderGalleryFigs
            (renderByCurrentFilter (removeById st.works fig.dataId) p)
          modalG := st.modalG.eraseIdx i } := by
      unfold deleteSuccess
      rw [hfig]
    have hid : fig.dataId = wd.id := by
      subst hfigeq
      rfl
    have hrem : removeById st.works fig.dataId = st.works.eraseIdx i := by
      rw [hid]
      exact removeById_eq_eraseIdx st.works i wd hwd hnd
    have hnotmem : fig.dataId ∉ (st.works.eraseIdx i).map (fun x => x.id) := by
      rw [hid]
      exact id_not_mem_eraseIdx st.works i wd hwd hnd
    refine ⟨⟨?_, ?_⟩, ?_, ?_, ?_, ?_⟩
    · show (deleteSuccess st i p).modalG = renderModalFigs (deleteSuccess st i p).works
      rw [hdel]
      show st.modalG.eraseIdx i = renderModalFigs (removeById st.works fig.dataId)
      rw [hrem, hmodal]
      unfold renderModalFigs
      rw [map_eraseIdx]
    · rw [hdel]
    · rw [hdel]
    · show fig.dataId ∉ (deleteSuccess st i p).modalG.map (fun f => f.dataId)
      rw [hdel]
      show fig.dataId ∉ (st.modalG.eraseIdx i).map (fun f => f.dataId)
      rw [hmodal]
      unfold renderModalFigs
      rw [← map_eraseIdx, List.map_map]
      intro hmem
      apply hnotmem
      simpa [Function.comp, createWorkFigure] using hmem
    · rw [hdel]
      show fig.dataId ∉ (removeById st.works fig.dataId).map (fun x => x.id)
      rw [hrem]
      exact hnotmem
    · rw [hdel]
      show fig.dataId ∉ (renderGalleryFigs
        (renderByCurrentFilter (removeById st.works fig.dataId) p)).map (fun f => f.dataId)
      intro hmem
      rw [hrem] at hmem
      unfold renderGalleryFigs at hmem
      rw [List.map_map] at hmem
      rcases List.mem_map.mp hmem with ⟨x, hx, hxid⟩
      apply hnotmem
      have hxmem : x ∈ st.works.eraseIdx i := mem_renderByCurrentFilter _ p x hx
      have : x.id = fig.dataId := by simpa [Function.comp, createWorkFigure] using hxid
      exact this ▸ List.mem_map_of_mem (fun x => x.id) hxmem

/-- Witness for C1: a synchronized two-work state under the absent
filter; the create appends id 3 and the delete clicks the first modal
figure (id 1). -/
theorem c1_witness :
    (galleriesInSync
        (createSuccess
          ⟨[⟨1, "A", "", none, none⟩, ⟨2, "B", "", none, none⟩],
            renderGalleryFigs [⟨1, "A", "", none, none⟩, ⟨2, "B", "", none, none⟩],
            renderModalFigs [⟨1, "A", "", none, none⟩, ⟨2, "B", "", none, none⟩]⟩
          ⟨3, "C", "", none, none⟩ none) none ∧
      (createSuccess
          ⟨[⟨1, "A", "", none, none⟩, ⟨2, "B", "", none, none⟩],
            renderGalleryFigs [⟨1, "A", "", none, none⟩, ⟨2, "B", "", none, none⟩],
            renderModalFigs [⟨1, "A", "", none, none⟩, ⟨2, "B", "", none, none⟩]⟩
          ⟨3, "C", "", none, none⟩ none).modalG =
        renderModalFigs [⟨1, "A", "", none, none⟩, ⟨2, "B", "", none, none⟩] ++
          [createWorkFigure ⟨3, "C", "", none, none⟩ true] ∧
      ((none : Option String) = none →
        (createSuccess
            ⟨[⟨1, "A", "", none, none⟩, ⟨2, "B", "", none, none⟩],
              renderGalleryFigs [⟨1, "A", "", none, none⟩, ⟨2, "B", "", none, none⟩],
              renderModalFigs [⟨1, "A", "", none, none⟩, ⟨2, "B", "", none, none⟩]⟩
            ⟨3, "C", "", none, none⟩ none).publicG =
          renderGalleryFigs [⟨1, "A", "", none, none⟩, ⟨2, "B", "", none, none⟩] ++
            [createWorkFigure ⟨3, "C", "", none, none⟩ false])) ∧
    (galleriesInSync
        (deleteSuccess
          ⟨[⟨1, "A", "", none, none⟩, ⟨2, "B", "", none, none⟩],
            renderGalleryFigs [⟨1, "A", "", none, none⟩, ⟨2, "B", "", none, none⟩],
            renderModalFigs [⟨1, "A", "", none, none⟩, ⟨2, "B", "", none, none⟩]⟩
          0 none) none ∧
      (deleteSuccess
          ⟨[⟨1, "A", "", none, none⟩, ⟨2, "B", "", none, none⟩],
            renderGalleryFigs [⟨1, "A", "", none, none⟩, ⟨2, "B", "", none, none⟩],
            renderModalFigs [⟨1, "A", "", none, none⟩, ⟨2, "B", "", none, none⟩]⟩
          0 none).modalG =
        (renderModalFigs [⟨1, "A", "", none, none⟩, ⟨2, "B", "", none, none⟩]).eraseIdx 0 ∧
      (⟨1, true⟩ : Fig).dataId ∉
        (deleteSuccess
          ⟨[⟨1, "A", "", none, none⟩, ⟨2, "B", "", none, none⟩],
            renderGalleryFigs [⟨1, "A", "", none, none⟩, ⟨2, "B", "", none, none⟩],
            renderModalFigs [⟨1, "A", "", none, none⟩, ⟨2, "B", "", none, none⟩]⟩
          0 none).modalG.map (fun f => f.dataId) ∧
      (⟨1, true⟩ : Fig).dataId ∉
        (deleteSuccess
          ⟨[⟨1, "A", "", none, none⟩, ⟨2, "B", "", none, none⟩],
            renderGalleryFigs [⟨1, "A", "", none, none⟩, ⟨2, "B", "", none, none⟩],
            renderModalFigs [⟨1, "A", "", none, none⟩, ⟨2, "B", "", none, none⟩]⟩
          0 none).works.map (fun x => x.id) ∧
      (⟨1, true⟩ : Fig).dataId ∉
        (deleteSuccess
          ⟨[⟨1, "A", "", none, none⟩, ⟨2, "B", "", none, none⟩],
            renderGalleryFigs [⟨1, "A", "", none, none⟩, ⟨2, "B", "", none, none⟩],
            renderModalFigs [⟨1, "A", "", none, none⟩, ⟨2, "B", "", none, none⟩]⟩
          0 none).publicG.map (fun f => f.dataId)) :=
  c1_galleries_stay_in_sync
    ⟨[⟨1, "A", "", none, none⟩, ⟨2, "B", "", none, none⟩],
      renderGalleryFigs [⟨1, "A", "", none, none⟩, ⟨2, "B", "", none, none⟩],
      renderModalFigs [⟨1, "A", "", none, none⟩, ⟨2, "B", "", none, none⟩]⟩
    ⟨3, "C", "", none, none⟩ none 0 ⟨1, true⟩
    (by constructor <;> rfl) (by decide) (by decide)

end Portfolio
